import Mathlib

/-!
Verification of the ScreenCapture bitstream/framing core.

This file gives a shallow embedding of the byte-level functions of
`screen_capture.cpp` (and the matching copies in the second source file):
the Annex-B normalizers (`ConvertLengthPrefixedToAnnexB`,
`ConvertAvccToAnnexB`), the keyframe scanner (`ContainsKeyframe`), the
wire writer (`SendFrameToPipe`), the pipe write loop, the sequence-header
enqueue logic of `EncodeVideoFrame`, and the capture-loop pacing.

Bytes are modelled as `Fin 256`; `std::vector<uint8_t>` as `List Byte`;
machine integers as `Nat` with explicit `% 2 ^ w` at the points where the
C++ code truncates (casts).  Big-endian / little-endian reassembly of
disjoint byte lanes (shift-or in the C++) is written as the equivalent
`*`/`+` arithmetic on `Nat`.
-/

set_option maxHeartbeats 1000000

abbrev Byte := Fin 256

/-- The 4-byte Annex-B start code appended by `AppendStartCode`. -/
def startCode : List Byte := [0, 0, 0, 1]

/-- The 4-byte big-endian value, as assembled in `ConvertLengthPrefixedToAnnexB`
(`(d[0] << 24) | (d[1] << 16) | (d[2] << 8) | d[3]` on disjoint lanes). -/
def be32 (b0 b1 b2 b3 : Byte) : Nat :=
  b0.val * 2 ^ 24 + b1.val * 2 ^ 16 + b2.val * 2 ^ 8 + b3.val

/-- Embedding of `ConvertLengthPrefixedToAnnexB` (screen_capture.cpp:44-58):
repeatedly read a 4-byte big-endian length and that many payload bytes,
emitting `startCode ++ payload` per unit; stop when fewer than 4 bytes
remain for the prefix or the declared length overruns the input.  The C++
returns `!out.empty()`; the returned list here is `out`. -/
def convertLengthPrefixedToAnnexB : List Byte → List Byte
  | b0 :: b1 :: b2 :: b3 :: rest =>
    let nalLen := be32 b0 b1 b2 b3
    if nalLen ≤ rest.length then
      startCode ++ rest.take nalLen ++ convertLengthPrefixedToAnnexB (rest.drop nalLen)
    else
      []
  | _ => []
termination_by l => l.length
decreasing_by
  simp only [List.length_drop, List.length_cons]
  omega

/-- The sequence of whole records declared by the length-prefixed framing:
each record's declared length is fully contained in the input; parsing
stops at the first prefix or record that would overrun the input. -/
def lengthPrefixedRecords : List Byte → List (List Byte)
  | b0 :: b1 :: b2 :: b3 :: rest =>
    let nalLen := be32 b0 b1 b2 b3
    if nalLen ≤ rest.length then
      rest.take nalLen :: lengthPrefixedRecords (rest.drop nalLen)
    else
      []
  | _ => []
termination_by l => l.length
decreasing_by
  simp only [List.length_drop, List.length_cons]
  omega

/-- One iteration of the `ContainsKeyframe` scan (screen_capture.cpp:60-75) at a
position with five available bytes `b0..b4`: test for a start code at `b0`,
then read the byte right after it and compare its low 5 bits with 5 (IDR). -/
def startCodeIdrHit (b0 b1 b2 b3 b4 : Byte) : Bool :=
  if b0 = 0 ∧ b1 = 0 ∧ ((b2 = 0 ∧ b3 = 1) ∨ b2 = 1) then
    (if b2 = 1 then b3.val else b4.val) % 32 == 5
  else
    false

/-- Embedding of the loop of `ContainsKeyframe`: the C++ iterates `i` while
`i + 4 < data.size()`, i.e. while the suffix at `i` has at least five bytes. -/
def keyframeScan : List Byte → Bool
  | b0 :: b1 :: b2 :: b3 :: b4 :: rest =>
    startCodeIdrHit b0 b1 b2 b3 b4 || keyframeScan (b1 :: b2 :: b3 :: b4 :: rest)
  | _ => false

/-- Embedding of `ContainsKeyframe` (screen_capture.cpp:60-75). -/
def containsKeyframe (data : List Byte) : Bool :=
  keyframeScan data

/-- The claim's classification condition at index `i`: a 3-byte or 4-byte
start code occurs at `i`, entirely inside the payload together with the byte
right after it, and that byte masked with `0x1F` equals 5. -/
def specKeyframeAt (data : List Byte) (i : Nat) : Prop :=
  (i + 3 < data.length ∧ data.getD i 0 = 0 ∧ data.getD (i + 1) 0 = 0 ∧
     data.getD (i + 2) 0 = 1 ∧ (data.getD (i + 3) 0).val % 32 = 5)
  ∨ (i + 4 < data.length ∧ data.getD i 0 = 0 ∧ data.getD (i + 1) 0 = 0 ∧
     data.getD (i + 2) 0 = 0 ∧ data.getD (i + 3) 0 = 1 ∧
     (data.getD (i + 4) 0).val % 32 = 5)

/-- The claim's predicate: some start-code occurrence in the payload is
immediately followed by an IDR (type-5) NAL byte. -/
def specContainsKeyframe (data : List Byte) : Prop :=
  ∃ i, specKeyframeAt data i

/-- The 2-byte big-endian record length, as assembled in `ConvertAvccToAnnexB`
(`(d[off] << 8) | d[off+1]` on disjoint lanes). -/
def be16 (hi lo : Byte) : Nat :=
  hi.val * 256 + lo.val

/-- Parse `n` (2-byte big-endian length, bytes) records, as one of the two
record loops of `ConvertAvccToAnnexB` (screen_capture.cpp:19-27 and 31-39).
First component: `some rest` on success, `none` when a length prefix or a
declared record length overruns the input (the C++ `return false`).  Second
component: the bytes appended to `out`, which the C++ KEEPS on failure —
records fully copied before the failure point remain. -/
def parseNRecords : Nat → List Byte → Option (List Byte) × List Byte
  | 0, l => (some l, [])
  | n + 1, hi :: lo :: rest =>
    let recLen := be16 hi lo
    if recLen ≤ rest.length then
      let next := parseNRecords n (rest.drop recLen)
      (next.1, (startCode ++ rest.take recLen) ++ next.2)
    else
      (none, [])
  | _ + 1, _ => (none, [])

/-- Embedding of `ConvertAvccToAnnexB` (screen_capture.cpp:12-42): reject
inputs shorter than 7 bytes; skip 5 header bytes; `num_sps = data[5] & 0x1F`;
parse that many SPS records; read `num_pps = data[offset]` (whole byte);
parse that many PPS records; each record is re-emitted as
`startCode ++ record`.  Returns the C++ `(return value, out)` pair; on
failure `out` keeps the records already emitted. -/
def convertAvccToAnnexB (data : List Byte) : Bool × List Byte :=
  if data.length < 7 then
    (false, [])
  else
    match parseNRecords ((data.getD 5 0).val % 32) (data.drop 6) with
    | (none, out1) => (false, out1)
    | (some [], out1) => (false, out1)
    | (some (numPps :: rest2), out1) =>
      match parseNRecords numPps.val rest2 with
      | (none, out2) => (false, out1 ++ out2)
      | (some _, out2) => (decide (out1 ++ out2 ≠ []), out1 ++ out2)

/-- Record parsing as the claim words it, for the comparison in the C4
counterexample: on any truncation the whole parse aborts with no output. -/
def specParseRecords : Nat → List Byte → Option (List Byte × List Byte)
  | 0, l => some ([], l)
  | n + 1, hi :: lo :: rest =>
    let recLen := be16 hi lo
    if recLen ≤ rest.length then
      (specParseRecords n (rest.drop recLen)).map
        (fun p => ((startCode ++ rest.take recLen) ++ p.1, p.2))
    else
      none
  | _ + 1, _ => none

/-- The parameter-set blob parser as claim C4 words it: a fixed header in
which 1 byte is skipped, then 1 byte gives the count of parameter-set-A
records, each as (2-byte big-endian length, bytes), then 1 byte gives the
count of parameter-set-B records in the same form; each record re-emitted
behind a 4-byte start code; malformed input yields no output. -/
def convertBlobSpecOneSkip (data : List Byte) : Bool × List Byte :=
  match data with
  | _ :: cntA :: rest =>
    match specParseRecords cntA.val rest with
    | none => (false, [])
    | some (outA, restA) =>
      match restA with
      | cntB :: restB =>
        match specParseRecords cntB.val restB with
        | none => (false, [])
        | some (outB, _) => (decide (outA ++ outB ≠ []), outA ++ outB)
      | [] => (false, [])
  | _ => (false, [])

/-- A `Nat` squeezed into a byte. -/
def byteOf (n : Nat) : Byte :=
  ⟨n % 256, Nat.mod_lt n (by norm_num)⟩

/-- Serialize one record in the blob's (2-byte big-endian length, bytes) form. -/
def encRecord (r : List Byte) : List Byte :=
  byteOf (r.length / 256) :: byteOf (r.length % 256) :: r

/-- Serialize a whole parameter-set blob: 5 header bytes, SPS count byte,
SPS records, PPS count byte, PPS records. -/
def mkAvccBlob (hdr : List Byte) (sps pps : List (List Byte)) : List Byte :=
  hdr ++ [byteOf sps.length] ++ sps.flatMap encRecord
      ++ [byteOf pps.length] ++ pps.flatMap encRecord

/-- The concrete blob of the C4 example: 5 header bytes, SPS count 1 with one
4-byte record `AA BB CC DD`, PPS count 1 with one 2-byte record `EE FF`. -/
def blobEx : List Byte :=
  [0, 0, 0, 0, 0, 1, 0, 4, 0xAA, 0xBB, 0xCC, 0xDD, 1, 0, 2, 0xEE, 0xFF]

/-- Embedding of screen_capture.cpp:388-389: `h264_sequence_header_` is
cleared and then `ConvertAvccToAnnexB` appends into it; the returned status
is IGNORED by the caller, so the cache afterwards is whatever the parse left
in `out`, whether or not the parse succeeded. -/
def initSequenceHeaderCache (avcc : List Byte) : List Byte :=
  (convertAvccToAnnexB avcc).2

/-- Embedding of the tail of `InitializeVideoEncoder`
(screen_capture.cpp:381-404): when the encoder exposes a sequence-header
blob it is converted into the cache, and initialization proceeds to return
true regardless of how that conversion went. -/
def finishVideoEncoderInit (blob : Option (List Byte)) : Bool × List Byte :=
  match blob with
  | some avcc => (true, initSequenceHeaderCache avcc)
  | none => (true, [])

/-- A truncated blob: SPS count 2, first SPS (length 1, byte `AA`) complete,
second SPS declares length 5 with no bytes left. -/
def badBlob : List Byte := [0, 0, 0, 0, 0, 2, 0, 1, 0xAA, 0, 5]

/-- The already-delimited test of `EncodeVideoFrame`
(screen_capture.cpp:803-805): at least 4 bytes and the payload begins with a
3- or 4-byte start code. -/
def isAnnexBStart (d : List Byte) : Bool :=
  decide (4 ≤ d.length ∧ d.getD 0 0 = 0 ∧ d.getD 1 0 = 0
    ∧ (d.getD 2 0 = 1 ∨ (d.getD 2 0 = 0 ∧ d.getD 3 0 = 1)))

/-- The payload actually enqueued by `EncodeVideoFrame`
(screen_capture.cpp:802-809): pass already-delimited data through; otherwise
use the length-prefixed conversion, and if the conversion produced nothing
fall back to the RAW encoder bytes. -/
def normalizeEncoderOutput (d : List Byte) : List Byte :=
  if isAnnexBStart d then d
  else if convertLengthPrefixedToAnnexB d = [] then d
  else convertLengthPrefixedToAnnexB d

/-- The per-output enqueue decision of `EncodeVideoFrame`
(screen_capture.cpp:800-833): nothing is enqueued when the encoder emitted
zero bytes (`out_len > 0` guard); otherwise one Unit is enqueued carrying
`normalizeEncoderOutput`. -/
def encodePayloadForQueue (d : List Byte) : Option (List Byte) :=
  if d = [] then none else some (normalizeEncoderOutput d)

/-- The value of frame_duration_ as computed in `Initialize`
(screen_capture.cpp:134): `10,000,000 / fps` in 100-nanosecond units. -/
def frameDuration100ns (fps : Nat) : Nat :=
  10000000 / fps

/-- The per-cycle sleep of `CaptureLoop` (screen_capture.cpp:556-557), in
milliseconds: `frame_duration_ / 10000`, taken unconditionally after every
cycle. -/
def captureSleepMs (fps : Nat) : Nat :=
  frameDuration100ns fps / 10000

/-- The sleep the claim describes, in microseconds: the target frame
interval `1_000_000 / target_fps` minus the time already spent on the
cycle's work. -/
def specPacingSleepUs (fps workUs : Nat) : Nat :=
  1000000 / fps - workUs

/-- The frame-queue element (screen_capture.h:34-41). -/
structure EncodedFrame where
  data : List Byte
  timestamp : Nat
  is_keyframe : Bool
  is_audio : Bool
deriving DecidableEq

/-- The flags byte value built in `SendFrameToPipe`
(screen_capture.cpp:853-855): bit 0 set for keyframe, bit 1 set for audio,
all other bits zero (bit-or of the two disjoint bits written as `+`). -/
def flagsVal (f : EncodedFrame) : Nat :=
  (if f.is_keyframe then 1 else 0) + (if f.is_audio then 2 else 0)

/-- The flags byte itself. -/
def flagsByte (f : EncodedFrame) : Byte :=
  byteOf (flagsVal f)

/-- The `w`-byte little-endian image of a value, as laid out in memory for
the `WriteFile(&size, ...)` / `WriteFile(&timestamp_us, ...)` calls on the
little-endian target (bytes taken from the value's low bits upward). -/
def leBytes : Nat → Nat → List Byte
  | 0, _ => []
  | w + 1, v => byteOf v :: leBytes w (v / 256)

/-- The four byte segments handed to the transport by `SendFrameToPipe`
(screen_capture.cpp:846-912), in write order: the 4-byte little-endian
`size = (uint32_t)frame.data.size()` (a truncating cast, hence `% 2 ^ 32`),
the 8-byte little-endian timestamp, the flags byte, then `size` bytes of
the payload buffer. -/
def wireSegments (f : EncodedFrame) : List (List Byte) :=
  [leBytes 4 (f.data.length % 2 ^ 32),
   leBytes 8 f.timestamp,
   [flagsByte f],
   f.data.take (f.data.length % 2 ^ 32)]

/-- The transport's answer to one `WriteFile` call. -/
structure WriteResult where
  ok : Bool
  written : Nat

/-- The write sequence of `SendFrameToPipe`: one transport call per segment
(`resp i s` answers the `i`-th call, asked to write `s`); after each call
the code checks `success && bytes_written == requested` and returns false
immediately otherwise, leaving the remaining segments unwritten.  Returns
(overall success, segments actually handed to the transport). -/
def writeSegments (resp : Nat → List Byte → WriteResult) :
    Nat → List (List Byte) → Bool × List (List Byte)
  | _, [] => (true, [])
  | i, s :: rest =>
    if (resp i s).ok = true ∧ (resp i s).written = s.length then
      ((writeSegments resp (i + 1) rest).1, s :: (writeSegments resp (i + 1) rest).2)
    else
      (false, [s])

/-- Observable transport events of one `SendFrameToPipe` call. -/
inductive PipeEvent where
  | write (bytes : List Byte)
  | flush
deriving DecidableEq

/-- Embedding of `SendFrameToPipe` (screen_capture.cpp:846-918): write the
four segments with per-call length checks; only when all four succeeded is
`FlushFileBuffers` reached (its own result is not consulted), and the
function returns true. -/
def sendFrameToPipe (resp : Nat → List Byte → WriteResult) (f : EncodedFrame) :
    Bool × List PipeEvent :=
  ((writeSegments resp 0 (wireSegments f)).1,
    (writeSegments resp 0 (wireSegments f)).2.map PipeEvent.write
      ++ if (writeSegments resp 0 (wireSegments f)).1 then [PipeEvent.flush] else [])

/-- A transport on which every write fully succeeds. -/
def okTransport : Nat → List Byte → WriteResult :=
  fun _ s => ⟨true, s.length⟩

/-- Embedding of `PipeWriteLoop` (screen_capture.cpp:564-590) over the
frames the queue will yield, in FIFO order: pop one frame, send it — the
call's result is discarded (line 582) — and continue while running.
Returns the event trace and the number of frames processed. -/
def pipeWriteLoop (send : EncodedFrame → Bool × List PipeEvent) :
    List EncodedFrame → List PipeEvent × Nat
  | [] => ([], 0)
  | g :: rest =>
    ((send g).2 ++ (pipeWriteLoop send rest).1, (pipeWriteLoop send rest).2 + 1)

/-- Read a `w`-byte little-endian value; returns the value and the rest. -/
def readLE : Nat → List Byte → Option (Nat × List Byte)
  | 0, l => some (0, l)
  | _ + 1, [] => none
  | w + 1, b :: l =>
    match readLE w l with
    | none => none
    | some (v, r) => some (b.val + 256 * v, r)

/-- Parse one wire frame back from a byte stream: 4-byte little-endian
length, 8-byte little-endian timestamp, flags byte, then `length` payload
bytes. -/
def parseWireFrame (l : List Byte) : Option (Nat × Nat × Byte × List Byte) :=
  match readLE 4 l with
  | none => none
  | some (len, r1) =>
    match readLE 8 r1 with
    | none => none
    | some (ts, r2) =>
      match r2 with
      | [] => none
      | fl :: r3 => if len ≤ r3.length then some (len, ts, fl, r3.take len) else none

/-- A transport that completes the first two writes and fails the third. -/
def failingThirdWriteTransport : Nat → List Byte → WriteResult :=
  fun i s => if i = 2 then ⟨false, 0⟩ else ⟨true, s.length⟩

/-- The acquire-side state relevant to the sequence header:
`sent_sequence_header_` and the frames pushed to `frame_queue_` so far, in
push order.  Each queue entry is tagged with the push site that produced
it: `true` for the sequence-header push (screen_capture.cpp:819), `false`
for the per-output access-unit push (line 831). -/
structure SessionState where
  sentHeader : Bool
  queue : List (Bool × EncodedFrame)

/-- One encoder output processed by `EncodeVideoFrame`
(screen_capture.cpp:800-833) with `h264_sequence_header_ = hdr`: an empty
output enqueues nothing; otherwise, if the header is cached, non-empty and
not yet sent, a synthetic non-keyframe Unit carrying exactly the header is
pushed first (and the flag set), then the normalized access-unit Unit is
pushed. -/
def processEncoderOutput (hdr : List Byte) (s : SessionState)
    (out : List Byte) (ts : Nat) : SessionState :=
  match encodePayloadForQueue out with
  | none => s
  | some payload =>
    let s1 :=
      if s.sentHeader = false ∧ hdr ≠ [] then
        { sentHeader := true,
          queue := s.queue ++ [(true, ⟨hdr, ts, false, false⟩)] }
      else s
    { sentHeader := s1.sentHeader,
      queue := s1.queue ++ [(false, ⟨payload, ts, containsKeyframe payload, false⟩)] }

/-- An encoder session: process the encoder outputs (bytes, timestamp) in
order, starting with `sent_sequence_header_ = false`
(screen_capture.cpp:400) and an empty queue. -/
def runSession (hdr : List Byte) (outs : List (List Byte × Nat)) : SessionState :=
  outs.foldl (fun s o => processEncoderOutput hdr s o.1 o.2) ⟨false, []⟩

/-- The access-unit Unit enqueued for one non-empty encoder output. -/
def realUnit (o : List Byte × Nat) : Bool × EncodedFrame :=
  (false, ⟨normalizeEncoderOutput o.1, o.2,
    containsKeyframe (normalizeEncoderOutput o.1), false⟩)

/-- The access-unit Units of a session: one per non-empty encoder output,
in order. -/
def realUnits (outs : List (List Byte × Nat)) : List (Bool × EncodedFrame) :=
  (outs.filter (fun o => decide (o.1 ≠ []))).map realUnit

/-- C1: for every input under the 4-byte big-endian length-prefixed framing,
`ConvertLengthPrefixedToAnnexB` emits exactly the concatenation, in order, of
`startCode ++ record` for each whole record contained in the input, dropping
truncated trailing bytes; and it produces no output iff zero whole records
were parsed (the C++ success flag is `!out.empty()`). -/
theorem convertLengthPrefixed_concat_of_records (data : List Byte) :
    convertLengthPrefixedToAnnexB data
      = (lengthPrefixedRecords data).flatMap (fun r => startCode ++ r)
    ∧ (convertLengthPrefixedToAnnexB data = [] ↔ lengthPrefixedRecords data = []) := by
  induction data using convertLengthPrefixedToAnnexB.induct with
  | case1 b0 b1 b2 b3 rest nalLen hle ih =>
    rw [convertLengthPrefixedToAnnexB, lengthPrefixedRecords]
    simp only [nalLen] at *
    rw [if_pos hle, if_pos hle]
    constructor
    · rw [List.flatMap_cons, ih.1, List.append_assoc]
    · simp [startCode]
  | case2 b0 b1 b2 b3 rest nalLen hgt =>
    rw [convertLengthPrefixedToAnnexB, lengthPrefixedRecords]
    simp only [nalLen] at *
    rw [if_neg hgt, if_neg hgt]
    simp
  | case3 l h =>
    match l, h with
    | [], _ => simp [convertLengthPrefixedToAnnexB, lengthPrefixedRecords]
    | [b0], _ => simp [convertLengthPrefixedToAnnexB, lengthPrefixedRecords]
    | [b0, b1], _ => simp [convertLengthPrefixedToAnnexB, lengthPrefixedRecords]
    | [b0, b1, b2], _ => simp [convertLengthPrefixedToAnnexB, lengthPrefixedRecords]
    | b0 :: b1 :: b2 :: b3 :: rest, h => exact (h b0 b1 b2 b3 rest rfl).elim

lemma specKeyframeAt_cons (b : Byte) (l : List Byte) (i : Nat) :
    specKeyframeAt (b :: l) (i + 1) ↔ specKeyframeAt l i := by
  unfold specKeyframeAt
  simp only [List.getD_cons_succ, List.length_cons]
  constructor
  · rintro (⟨h1, h2, h3, h4, h5⟩ | ⟨h1, h2, h3, h4, h5, h6⟩)
    · exact Or.inl ⟨by omega, h2, h3, h4, h5⟩
    · exact Or.inr ⟨by omega, h2, h3, h4, h5, h6⟩
  · rintro (⟨h1, h2, h3, h4, h5⟩ | ⟨h1, h2, h3, h4, h5, h6⟩)
    · exact Or.inl ⟨by omega, h2, h3, h4, h5⟩
    · exact Or.inr ⟨by omega, h2, h3, h4, h5, h6⟩

lemma startCodeIdrHit_iff (b0 b1 b2 b3 b4 : Byte) :
    startCodeIdrHit b0 b1 b2 b3 b4 = true ↔
      ((b0 = 0 ∧ b1 = 0 ∧ b2 = 1 ∧ b3.val % 32 = 5)
        ∨ (b0 = 0 ∧ b1 = 0 ∧ b2 = 0 ∧ b3 = 1 ∧ b4.val % 32 = 5)) := by
  unfold startCodeIdrHit
  by_cases hpat : b0 = 0 ∧ b1 = 0 ∧ ((b2 = 0 ∧ b3 = 1) ∨ b2 = 1)
  · rw [if_pos hpat]
    obtain ⟨h0, h1, hd⟩ := hpat
    by_cases h2 : b2 = 1
    · rw [if_pos h2]
      have h20 : ¬ b2 = 0 := by rw [h2]; decide
      simp only [beq_iff_eq]
      tauto
    · rw [if_neg h2]
      simp only [beq_iff_eq]
      tauto
  · rw [if_neg hpat]
    simp only [Bool.false_eq_true, false_iff]
    rintro (⟨h0, h1, h2, h3⟩ | ⟨h0, h1, h2, h3, h4⟩) <;> exact hpat ⟨h0, h1, by tauto⟩

lemma keyframeScan_iff (l : List Byte) :
    keyframeScan l = true ↔ ∃ i, i + 4 < l.length ∧ specKeyframeAt l i := by
  induction l using keyframeScan.induct with
  | case1 b0 b1 b2 b3 b4 rest ih =>
    rw [keyframeScan]
    simp only [Bool.or_eq_true, ih, startCodeIdrHit_iff]
    constructor
    · rintro (hhit | ⟨i, hlen, hat⟩)
      · refine ⟨0, by simp only [List.length_cons]; omega, ?_⟩
        unfold specKeyframeAt
        simp only [List.getD_cons_zero, List.getD_cons_succ, List.length_cons]
        rcases hhit with ⟨h0, h1, h2, h3⟩ | ⟨h0, h1, h2, h3, h4⟩
        · exact Or.inl ⟨by omega, h0, h1, h2, h3⟩
        · exact Or.inr ⟨by omega, h0, h1, h2, h3, h4⟩
      · refine ⟨i + 1, ?_, (specKeyframeAt_cons _ _ _).mpr hat⟩
        simp only [List.length_cons] at hlen ⊢
        omega
    · rintro ⟨i, hlen, hat⟩
      match i with
      | 0 =>
        left
        unfold specKeyframeAt at hat
        simp only [List.getD_cons_zero, List.getD_cons_succ] at hat
        rcases hat with ⟨h1, h2, h3, h4, h5⟩ | ⟨h1, h2, h3, h4, h5, h6⟩
        · exact Or.inl ⟨h2, h3, h4, h5⟩
        · exact Or.inr ⟨h2, h3, h4, h5, h6⟩
      | i + 1 =>
        right
        refine ⟨i, ?_, (specKeyframeAt_cons _ _ _).mp hat⟩
        simp only [List.length_cons] at hlen ⊢
        omega
  | case2 l h =>
    match l, h with
    | [], _ => simp [keyframeScan, List.length_nil]
    | [b0], _ => simp [keyframeScan]
    | [b0, b1], _ => simp [keyframeScan]
    | [b0, b1, b2], _ => simp [keyframeScan]
    | [b0, b1, b2, b3], _ => simp [keyframeScan]
    | b0 :: b1 :: b2 :: b3 :: b4 :: rest, h => exact (h b0 b1 b2 b3 b4 rest rfl).elim

/-- C2 counterexample: the payload `00 00 01 05` contains a 3-byte start code
followed by a NAL byte of type 5 (IDR), so the claim says `ContainsKeyframe`
must return true; the code's scan (bounded by `i + 4 < size`) returns false. -/
theorem containsKeyframe_missing_tail_start_code :
    specContainsKeyframe [0, 0, 1, 5] ∧ containsKeyframe [0, 0, 1, 5] = false := by
  constructor
  · exact ⟨0, Or.inl (by decide)⟩
  · decide

/-- C2 (amended): `ContainsKeyframe` returns true iff some start-code
occurrence at an index `i` with `i + 4 < length` is immediately followed by a
byte whose low 5 bits equal 5; both 3- and 4-byte start-code forms are
handled, but a 3-byte start code whose NAL byte is the payload's final byte
is not detected (the scan stops once fewer than five bytes remain). -/
theorem containsKeyframe_iff (data : List Byte) :
    containsKeyframe data = true ↔
      ∃ i, i + 4 < data.length ∧ specKeyframeAt data i := by
  exact keyframeScan_iff data

/-- C4 counterexample: the code's blob parser is not the claimed
skip-1-byte parser.  On the example blob the code (which skips 5 header
bytes and masks the count with `0x1F`) produces the claimed output, while a
parser laid out as the claim describes (1 byte skipped, then the count byte)
reads count bytes 0 and 0 and produces nothing. -/
theorem convertAvcc_not_one_skip_layout :
    convertAvccToAnnexB blobEx
        = (true, [0, 0, 0, 1, 0xAA, 0xBB, 0xCC, 0xDD, 0, 0, 0, 1, 0xEE, 0xFF])
      ∧ convertBlobSpecOneSkip blobEx = (false, []) := by
  constructor <;> decide

lemma flatMap_startCode_eq_nil (rs : List (List Byte)) :
    rs.flatMap (fun r => startCode ++ r) = [] ↔ rs = [] := by
  cases rs <;> simp [startCode]

lemma parseNRecords_of_serialized (rs : List (List Byte)) (tail : List Byte)
    (hlen : ∀ r ∈ rs, r.length < 65536) :
    parseNRecords rs.length (rs.flatMap encRecord ++ tail)
      = (some tail, rs.flatMap (fun r => startCode ++ r)) := by
  induction rs with
  | nil => simp [parseNRecords]
  | cons r rs ih =>
    have hr : r.length < 65536 := hlen r (List.mem_cons_self r rs)
    have hrest : ∀ s ∈ rs, s.length < 65536 :=
      fun s hs => hlen s (List.mem_cons_of_mem r hs)
    have hlen256 : r.length / 256 < 256 := by omega
    have hbe : be16 (byteOf (r.length / 256)) (byteOf (r.length % 256)) = r.length := by
      unfold be16 byteOf
      simp only
      omega
    simp only [List.length_cons, List.flatMap_cons, encRecord, List.cons_append,
      List.append_assoc]
    rw [parseNRecords]
    simp only [hbe]
    rw [if_pos (by simp)]
    rw [List.take_append_of_le_length (le_refl _), List.take_length,
      List.drop_append_of_le_length (le_refl _), List.drop_length,
      List.nil_append, ih hrest]
    simp [List.append_assoc]

/-- C4 (amended): the out-of-band parameter-set blob parser skips 5 header
bytes (configuration version, profile, compatibility, level, length-size
marker), then reads one byte whose LOW 5 BITS give the count of
parameter-set-A (SPS) records, each as (2-byte big-endian length, bytes),
then one byte giving the count of parameter-set-B (PPS) records in the same
form; each record is re-emitted behind a 4-byte start code.  In particular
the 5-byte-header blob with SPS count 1 (record `AA BB CC DD`) and PPS
count 1 (record `EE FF`) yields
`00 00 00 01 AA BB CC DD 00 00 00 01 EE FF`. -/
theorem convertAvcc_wellFormed_blob (hdr : List Byte) (sps pps : List (List Byte))
    (hh : hdr.length = 5) (hs : sps.length < 32) (hp : pps.length < 256)
    (hrs : ∀ r ∈ sps, r.length < 65536) (hrp : ∀ r ∈ pps, r.length < 65536) :
    convertAvccToAnnexB (mkAvccBlob hdr sps pps)
        = (decide (sps ++ pps ≠ []), (sps ++ pps).flatMap (fun r => startCode ++ r))
      ∧ convertAvccToAnnexB blobEx
        = (true, [0, 0, 0, 1, 0xAA, 0xBB, 0xCC, 0xDD, 0, 0, 0, 1, 0xEE, 0xFF]) := by
  refine ⟨?_, by decide⟩
  match hdr, hh with
  | [a0, a1, a2, a3, a4], _ =>
    unfold mkAvccBlob convertAvccToAnnexB
    have hlen7 : ¬ (([a0, a1, a2, a3, a4] ++ [byteOf sps.length]
        ++ sps.flatMap encRecord ++ [byteOf pps.length] ++ pps.flatMap encRecord).length < 7) := by
      simp [List.length_append]
      omega
    rw [if_neg hlen7]
    have hget5 : ([a0, a1, a2, a3, a4] ++ [byteOf sps.length]
        ++ sps.flatMap encRecord ++ [byteOf pps.length] ++ pps.flatMap encRecord).getD 5 0
        = byteOf sps.length := by
      simp [List.getD_append, List.getD]
    have hdrop6 : ([a0, a1, a2, a3, a4] ++ [byteOf sps.length]
        ++ sps.flatMap encRecord ++ [byteOf pps.length] ++ pps.flatMap encRecord).drop 6
        = sps.flatMap encRecord ++ (byteOf pps.length :: pps.flatMap encRecord) := by
      simp [List.drop_append, List.append_assoc]
    rw [hget5, hdrop6]
    have hvSps : (byteOf sps.length).val % 32 = sps.length := by
      unfold byteOf
      simp only
      omega
    rw [hvSps, parseNRecords_of_serialized sps _ hrs]
    dsimp only
    have hvPps : (byteOf pps.length).val = pps.length := by
      unfold byteOf
      simp only
      omega
    rw [hvPps]
    have hpp := parseNRecords_of_serialized pps ([] : List Byte) hrp
    rw [List.append_nil] at hpp
    rw [hpp]
    have hbool : (sps.flatMap (fun r => startCode ++ r) ++ pps.flatMap (fun r => startCode ++ r) ≠ [])
        ↔ (sps ++ pps ≠ []) := by
      rw [← List.flatMap_append, not_iff_not, flatMap_startCode_eq_nil,
        List.append_eq_nil]
    dsimp only
    rw [decide_eq_decide.mpr hbool, ← List.flatMap_append]

/-- C4 witness: the amended blob theorem applied at the concrete example
(5 zero header bytes, one SPS `AA BB CC DD`, one PPS `EE FF`). -/
theorem convertAvcc_wellFormed_blob_witness :
    ([0, 0, 0, 0, 0] : List Byte).length = 5
    ∧ ([[0xAA, 0xBB, 0xCC, 0xDD]] : List (List Byte)).length < 32
    ∧ ([[0xEE, 0xFF]] : List (List Byte)).length < 256
    ∧ (∀ r ∈ ([[0xAA, 0xBB, 0xCC, 0xDD]] : List (List Byte)), r.length < 65536)
    ∧ (∀ r ∈ ([[0xEE, 0xFF]] : List (List Byte)), r.length < 65536)
    ∧ (convertAvccToAnnexB (mkAvccBlob [0, 0, 0, 0, 0] [[0xAA, 0xBB, 0xCC, 0xDD]] [[0xEE, 0xFF]])
          = (decide (([[0xAA, 0xBB, 0xCC, 0xDD]] ++ [[0xEE, 0xFF]] : List (List Byte)) ≠ []),
             (([[0xAA, 0xBB, 0xCC, 0xDD]] ++ [[0xEE, 0xFF]] : List (List Byte)).flatMap
               (fun r => startCode ++ r)))
        ∧ convertAvccToAnnexB blobEx
          = (true, [0, 0, 0, 1, 0xAA, 0xBB, 0xCC, 0xDD, 0, 0, 0, 1, 0xEE, 0xFF])) :=
  ⟨by decide, by decide, by decide, by decide, by decide,
    convertAvcc_wellFormed_blob [0, 0, 0, 0, 0] [[0xAA, 0xBB, 0xCC, 0xDD]] [[0xEE, 0xFF]]
      (by decide) (by decide) (by decide) (by decide) (by decide)⟩

/-- C5 counterexample: on the truncated blob the parse fails, yet the cache
is NOT empty afterwards — the first, fully parsed record (with its start
code) is retained, because the failing `ConvertAvccToAnnexB` leaves already
converted records in `out` and the caller ignores the failure status. -/
theorem convertAvcc_failed_parse_retains_partial :
    (convertAvccToAnnexB badBlob).1 = false
    ∧ initSequenceHeaderCache badBlob = [0, 0, 0, 1, 0xAA]
    ∧ initSequenceHeaderCache badBlob ≠ [] := by
  refine ⟨by decide, by decide, by decide⟩

lemma parseNRecords_out_records (n : Nat) (l : List Byte) :
    ∃ rs : List (List Byte),
      (parseNRecords n l).2 = rs.flatMap (fun r => startCode ++ r) := by
  induction n generalizing l with
  | zero => exact ⟨[], rfl⟩
  | succ n ih =>
    match l with
    | [] => exact ⟨[], rfl⟩
    | [hi] => exact ⟨[], rfl⟩
    | hi :: lo :: rest =>
      rw [parseNRecords]
      dsimp only
      by_cases hle : be16 hi lo ≤ rest.length
      · rw [if_pos hle]
        obtain ⟨rs, hrs⟩ := ih (rest.drop (be16 hi lo))
        refine ⟨rest.take (be16 hi lo) :: rs, ?_⟩
        simp [hrs, List.append_assoc]
      · rw [if_neg hle]
        exact ⟨[], rfl⟩

/-- C5 (amended): a malformed or truncated parameter-set blob makes the
parse report failure, but the cache is not necessarily empty afterwards: it
retains exactly the start-code-prefixed records that were fully parsed
before the failure point (never a partially copied record), because the
caller ignores the returned status; the failed parse is not fatal —
initialization still reports success. -/
theorem convertAvcc_cache_is_whole_records (avcc : List Byte) :
    (∃ rs : List (List Byte),
        initSequenceHeaderCache avcc = rs.flatMap (fun r => startCode ++ r))
    ∧ (finishVideoEncoderInit (some avcc)).1 = true := by
  refine ⟨?_, rfl⟩
  unfold initSequenceHeaderCache convertAvccToAnnexB
  split
  · exact ⟨[], rfl⟩
  · obtain ⟨rs1, h1⟩ := parseNRecords_out_records ((avcc.getD 5 0).val % 32) (avcc.drop 6)
    split
    · next out1 heq =>
        rw [heq] at h1
        exact ⟨rs1, h1⟩
    · next out1 heq =>
        rw [heq] at h1
        exact ⟨rs1, h1⟩
    · next numPps rest2 out1 heq =>
        rw [heq] at h1
        obtain ⟨rs2, h2⟩ := parseNRecords_out_records numPps.val rest2
        dsimp only at h1
        split
        · next out2 heq2 =>
            rw [heq2] at h2
            dsimp only at h2
            exact ⟨rs1 ++ rs2, by rw [List.flatMap_append, ← h1, ← h2]⟩
        · next out2 heq2 =>
            rw [heq2] at h2
            dsimp only at h2
            exact ⟨rs1 ++ rs2, by rw [List.flatMap_append, ← h1, ← h2]⟩

/-- C6 counterexample: on the payload `00 00 00 04` (a length prefix
declaring 4 bytes with none following) normalization produces the empty
result, yet the caller does not discard the input — it enqueues the raw
bytes unchanged, contradicting "enqueues nothing for that payload". -/
theorem encodePayload_raw_fallback_counterexample :
    convertLengthPrefixedToAnnexB [0, 0, 0, 4] = []
    ∧ isAnnexBStart [0, 0, 0, 4] = false
    ∧ encodePayloadForQueue [0, 0, 0, 4] = some [0, 0, 0, 4] := by
  have hconv : convertLengthPrefixedToAnnexB [0, 0, 0, 4] = [] := by
    simp only [convertLengthPrefixedToAnnexB]
    decide
  refine ⟨hconv, by decide, ?_⟩
  unfold encodePayloadForQueue normalizeEncoderOutput
  rw [if_neg (by decide : ¬ ([0, 0, 0, 4] : List Byte) = []),
    if_neg (by decide : ¬ isAnnexBStart [0, 0, 0, 4] = true), if_pos hconv]

/-- C6 (amended): no Unit with an empty payload is ever enqueued — empty
encoder output is skipped outright, and every enqueued payload is non-empty;
however, when normalization produces an empty result on non-empty input the
caller does not discard the input: it enqueues the raw encoder bytes
unchanged as the Unit's payload. -/
theorem encodePayload_nonempty_and_raw_fallback (d : List Byte) :
    (∀ p, encodePayloadForQueue d = some p → p ≠ [])
    ∧ (d ≠ [] → isAnnexBStart d = false → convertLengthPrefixedToAnnexB d = [] →
        encodePayloadForQueue d = some d) := by
  constructor
  · intro p hp
    unfold encodePayloadForQueue at hp
    by_cases hd : d = []
    · rw [if_pos hd] at hp
      exact absurd hp (by simp)
    · rw [if_neg hd] at hp
      have hp2 : p = normalizeEncoderOutput d := by
        simpa using hp.symm
      subst hp2
      unfold normalizeEncoderOutput
      by_cases h1 : isAnnexBStart d = true
      · rw [if_pos h1]
        exact hd
      · rw [if_neg h1]
        by_cases h2 : convertLengthPrefixedToAnnexB d = []
        · rw [if_pos h2]
          exact hd
        · rw [if_neg h2]
          exact h2
  · intro hd h1 h2
    unfold encodePayloadForQueue normalizeEncoderOutput
    rw [if_neg hd, h1]
    simp only [Bool.false_eq_true, if_false, if_pos h2]

/-- C6 witness: the amended theorem applied at the one-byte payload `09`,
which is not start-code delimited and yields an empty conversion, so the raw
byte is enqueued. -/
theorem encodePayload_nonempty_witness :
    encodePayloadForQueue [9] = some [9] :=
  (encodePayload_nonempty_and_raw_fallback [9]).2 (by decide) (by decide)
    (by simp only [convertLengthPrefixedToAnnexB])

/-- C8 counterexample: at the default 60 fps the loop sleeps a fixed
16 ms = 16000 µs each cycle.  That is not the claimed remainder of the
frame interval: with 5000 µs of work the claim prescribes 11666 µs, and
even with zero work it prescribes 16666 µs. -/
theorem captureSleep_not_remainder :
    captureSleepMs 60 * 1000 = 16000
    ∧ captureSleepMs 60 * 1000 ≠ specPacingSleepUs 60 5000
    ∧ captureSleepMs 60 * 1000 ≠ specPacingSleepUs 60 0 := by
  refine ⟨by decide, by decide, by decide⟩

/-- C8 (amended): after each cycle the capture loop sleeps a fixed
`(10_000_000 / fps) / 10_000` milliseconds — the full target frame interval
truncated to whole milliseconds, i.e. `1000 / fps` ms — independent of how
long the cycle's work took, so the loop runs slower than the configured
rate rather than being paced to it. -/
theorem captureSleep_fixed_full_interval (fps : Nat) :
    captureSleepMs fps = 1000 / fps := by
  unfold captureSleepMs frameDuration100ns
  rw [Nat.div_div_eq_div_mul]
  have h : (10000000 : Nat) = 1000 * 10000 := by norm_num
  rw [h, Nat.mul_div_mul_right 1000 fps (by norm_num)]

lemma writeSegments_okTransport (segs : List (List Byte)) (i : Nat) :
    writeSegments okTransport i segs = (true, segs) := by
  induction segs generalizing i with
  | nil => rfl
  | cons s rest ih =>
    rw [writeSegments, if_pos ⟨rfl, rfl⟩, ih (i + 1)]

lemma readLE_leBytes (w : Nat) (v : Nat) (rest : List Byte) (hv : v < 256 ^ w) :
    readLE w (leBytes w v ++ rest) = some (v, rest) := by
  induction w generalizing v rest with
  | zero =>
    have hv0 : v = 0 := by simpa using hv
    subst hv0
    rfl
  | succ w ih =>
    have hdiv : v / 256 < 256 ^ w := by
      rw [pow_succ] at hv
      omega
    rw [leBytes, List.cons_append, readLE, ih (v / 256) rest hdiv]
    have hval : (byteOf v).val + 256 * (v / 256) = v := by
      unfold byteOf
      simp only
      omega
    dsimp only
    rw [hval]

lemma flagsByte_val (f : EncodedFrame) :
    (flagsByte f).val = flagsVal f := by
  unfold flagsByte byteOf flagsVal
  rcases f.is_keyframe <;> rcases f.is_audio <;> simp

/-- C3: on a transport where every write succeeds, `SendFrameToPipe` emits
exactly, in order, the 4-byte little-endian payload length, the 8-byte
little-endian timestamp in microseconds, one flags byte (bit 0 keyframe,
bit 1 audio, all other bits zero), then the payload bytes verbatim, and
flushes the Sink after the payload; parsing the four fields back from the
emitted byte stream reproduces length, timestamp, flags and payload
bit-for-bit. -/
theorem sendFrame_wire_format (f : EncodedFrame)
    (hlen : f.data.length < 2 ^ 32) (hts : f.timestamp < 2 ^ 64) :
    sendFrameToPipe okTransport f
        = (true, [PipeEvent.write (leBytes 4 f.data.length),
                  PipeEvent.write (leBytes 8 f.timestamp),
                  PipeEvent.write [flagsByte f],
                  PipeEvent.write f.data,
                  PipeEvent.flush])
      ∧ (flagsByte f).val % 2 = (if f.is_keyframe then 1 else 0)
      ∧ (flagsByte f).val / 2 % 2 = (if f.is_audio then 1 else 0)
      ∧ (flagsByte f).val / 4 = 0
      ∧ parseWireFrame ((wireSegments f).flatten)
          = some (f.data.length, f.timestamp, flagsByte f, f.data) := by
  have hmod : f.data.length % 2 ^ 32 = f.data.length := Nat.mod_eq_of_lt hlen
  have h4 : f.data.length < 256 ^ 4 := by
    rw [(by norm_num : (256 : Nat) ^ 4 = 2 ^ 32)]
    exact hlen
  have h8 : f.timestamp < 256 ^ 8 := by
    rw [(by norm_num : (256 : Nat) ^ 8 = 2 ^ 64)]
    exact hts
  refine ⟨?_, ?_, ?_, ?_, ?_⟩
  · unfold sendFrameToPipe
    rw [writeSegments_okTransport]
    unfold wireSegments
    rw [hmod, List.take_length]
    rfl
  · rw [flagsByte_val]
    unfold flagsVal
    rcases f.is_keyframe <;> rcases f.is_audio <;> simp
  · rw [flagsByte_val]
    unfold flagsVal
    rcases f.is_keyframe <;> rcases f.is_audio <;> simp
  · rw [flagsByte_val]
    unfold flagsVal
    rcases f.is_keyframe <;> rcases f.is_audio <;> simp
  · unfold wireSegments parseWireFrame
    rw [hmod, List.take_length]
    rw [List.flatten, List.flatten, List.flatten, List.flatten, List.flatten]
    rw [List.append_nil]
    rw [readLE_leBytes 4 f.data.length _ h4]
    dsimp only
    rw [readLE_leBytes 8 f.timestamp _ h8]
    dsimp only
    rw [List.cons_append, List.nil_append]
    dsimp only
    rw [if_pos (le_refl _), List.take_length]

/-- C3 witness: the wire-format theorem applied to a concrete keyframe Unit
with payload `AB` and timestamp 300 µs. -/
theorem sendFrame_wire_format_witness :
    (([0xAB] : List Byte).length < 2 ^ 32) ∧ ((300 : Nat) < 2 ^ 64)
    ∧ (sendFrameToPipe okTransport ⟨[0xAB], 300, true, false⟩
          = (true, [PipeEvent.write (leBytes 4 ([0xAB] : List Byte).length),
                    PipeEvent.write (leBytes 8 300),
                    PipeEvent.write [flagsByte ⟨[0xAB], 300, true, false⟩],
                    PipeEvent.write [0xAB],
                    PipeEvent.flush])
        ∧ (flagsByte ⟨[0xAB], 300, true, false⟩).val % 2 = 1
        ∧ (flagsByte ⟨[0xAB], 300, true, false⟩).val / 2 % 2 = 0
        ∧ (flagsByte ⟨[0xAB], 300, true, false⟩).val / 4 = 0
        ∧ parseWireFrame ((wireSegments ⟨[0xAB], 300, true, false⟩).flatten)
            = some (([0xAB] : List Byte).length, 300,
                flagsByte ⟨[0xAB], 300, true, false⟩, [0xAB])) :=
  ⟨by decide, by decide,
    sendFrame_wire_format ⟨[0xAB], 300, true, false⟩ (by decide) (by decide)⟩

/-- C10: the wire writer truncates the payload size to 32 bits — for every
Unit the emitted length field is the payload's byte count modulo `2 ^ 32`,
exactly that many payload bytes are handed to the Sink (the truncated
prefix of the payload), and on a transport where every write succeeds the
send is still reported successful. -/
theorem sendFrame_truncates_size (f : EncodedFrame) :
    sendFrameToPipe okTransport f
        = (true, [PipeEvent.write (leBytes 4 (f.data.length % 2 ^ 32)),
                  PipeEvent.write (leBytes 8 f.timestamp),
                  PipeEvent.write [flagsByte f],
                  PipeEvent.write (f.data.take (f.data.length % 2 ^ 32)),
                  PipeEvent.flush])
      ∧ (f.data.take (f.data.length % 2 ^ 32)).length = f.data.length % 2 ^ 32 := by
  constructor
  · unfold sendFrameToPipe
    rw [writeSegments_okTransport]
    rfl
  · rw [List.length_take]
    exact Nat.min_eq_left (Nat.mod_le _ _)

lemma writeSegments_fail_at (resp : Nat → List Byte → WriteResult) (j : Nat) :
    ∀ (segs : List (List Byte)) (i : Nat), j < segs.length →
    (∀ k, k < j → (resp (i + k) (segs.getD k [])).ok = true
        ∧ (resp (i + k) (segs.getD k [])).written = (segs.getD k []).length) →
    ¬ ((resp (i + j) (segs.getD j [])).ok = true
        ∧ (resp (i + j) (segs.getD j [])).written = (segs.getD j []).length) →
    writeSegments resp i segs = (false, segs.take (j + 1)) := by
  induction j with
  | zero =>
    intro segs i hj hok hfail
    match segs with
    | s :: rest =>
      simp only [List.getD_cons_zero, Nat.add_zero] at hfail
      rw [writeSegments, if_neg hfail]
      rfl
  | succ j ih =>
    intro segs i hj hok hfail
    match segs with
    | s :: rest =>
      have h0 := hok 0 (Nat.succ_pos j)
      simp only [List.getD_cons_zero, Nat.add_zero] at h0
      have hj2 : j < rest.length := by
        simp only [List.length_cons] at hj
        omega
      have hok2 : ∀ k, k < j → (resp (i + 1 + k) (rest.getD k [])).ok = true
          ∧ (resp (i + 1 + k) (rest.getD k [])).written = (rest.getD k []).length := by
        intro k hk
        have h := hok (k + 1) (by omega)
        have hidx : i + (k + 1) = i + 1 + k := by omega
        rw [List.getD_cons_succ, hidx] at h
        exact h
      have hfail2 : ¬ ((resp (i + 1 + j) (rest.getD j [])).ok = true
          ∧ (resp (i + 1 + j) (rest.getD j [])).written = (rest.getD j []).length) := by
        have hidx : i + (j + 1) = i + 1 + j := by omega
        rw [List.getD_cons_succ, hidx] at hfail
        exact hfail
      rw [writeSegments, if_pos h0, ih rest (i + 1) hj2 hok2 hfail2]
      rfl

lemma pipeWriteLoop_count (send : EncodedFrame → Bool × List PipeEvent)
    (frames : List EncodedFrame) :
    (pipeWriteLoop send frames).2 = frames.length := by
  induction frames with
  | nil => rfl
  | cons g rest ih =>
    rw [pipeWriteLoop]
    simp only [List.length_cons]
    rw [ih]

/-- C7: if the transport reports a short or failed write on the `j`-th of
the four wire segments (length, timestamp, flags, payload) while the
earlier segments were written in full, `SendFrameToPipe` returns failure
immediately: exactly the first `j + 1` segments were handed to the
transport, the remaining segments are never written, nothing is retried,
and no flush happens; and the pipe write loop (which discards the send
result) still processes every queued Unit exactly once, so a write failure
drops the current Unit without stopping the loop. -/
theorem sendFrame_fail_fast (resp : Nat → List Byte → WriteResult)
    (f : EncodedFrame) (frames : List EncodedFrame) (j : Nat) (hj : j < 4)
    (hok : ∀ k, k < j → (resp k ((wireSegments f).getD k [])).ok = true
        ∧ (resp k ((wireSegments f).getD k [])).written
            = ((wireSegments f).getD k []).length)
    (hfail : ¬ ((resp j ((wireSegments f).getD j [])).ok = true
        ∧ (resp j ((wireSegments f).getD j [])).written
            = ((wireSegments f).getD j []).length)) :
    sendFrameToPipe resp f
        = (false, ((wireSegments f).take (j + 1)).map PipeEvent.write)
      ∧ (pipeWriteLoop (sendFrameToPipe resp) frames).2 = frames.length := by
  constructor
  · have hlen : j < (wireSegments f).length := by
      simpa [wireSegments] using hj
    have hok0 : ∀ k, k < j → (resp (0 + k) ((wireSegments f).getD k [])).ok = true
        ∧ (resp (0 + k) ((wireSegments f).getD k [])).written
            = ((wireSegments f).getD k []).length := by
      intro k hk
      simpa [Nat.zero_add] using hok k hk
    have hfail0 : ¬ ((resp (0 + j) ((wireSegments f).getD j [])).ok = true
        ∧ (resp (0 + j) ((wireSegments f).getD j [])).written
            = ((wireSegments f).getD j []).length) := by
      simpa [Nat.zero_add] using hfail
    have hws := writeSegments_fail_at resp j (wireSegments f) 0 hlen hok0 hfail0
    unfold sendFrameToPipe
    rw [hws]
    simp
  · exact pipeWriteLoop_count _ _

/-- C7 witness: the fail-fast theorem applied to a concrete Unit whose
third segment write (the flags byte) fails, with a one-element queue. -/
theorem sendFrame_fail_fast_witness :
    (2 < 4)
    ∧ (∀ k, k < 2 →
        (failingThirdWriteTransport k
            ((wireSegments ⟨[1, 2], 7, false, false⟩).getD k [])).ok = true
        ∧ (failingThirdWriteTransport k
            ((wireSegments ⟨[1, 2], 7, false, false⟩).getD k [])).written
          = ((wireSegments ⟨[1, 2], 7, false, false⟩).getD k []).length)
    ∧ ¬ ((failingThirdWriteTransport 2
            ((wireSegments ⟨[1, 2], 7, false, false⟩).getD 2 [])).ok = true
        ∧ (failingThirdWriteTransport 2
            ((wireSegments ⟨[1, 2], 7, false, false⟩).getD 2 [])).written
          = ((wireSegments ⟨[1, 2], 7, false, false⟩).getD 2 []).length)
    ∧ (sendFrameToPipe failingThirdWriteTransport ⟨[1, 2], 7, false, false⟩
          = (false, ((wireSegments ⟨[1, 2], 7, false, false⟩).take 3).map PipeEvent.write)
        ∧ (pipeWriteLoop (sendFrameToPipe failingThirdWriteTransport)
            [⟨[1, 2], 7, false, false⟩]).2
          = ([⟨[1, 2], 7, false, false⟩] : List EncodedFrame).length) :=
  ⟨by decide, by decide, by decide,
    sendFrame_fail_fast failingThirdWriteTransport ⟨[1, 2], 7, false, false⟩
      [⟨[1, 2], 7, false, false⟩] 2 (by decide) (by decide) (by decide)⟩

lemma encodePayloadForQueue_nil : encodePayloadForQueue [] = none := rfl

lemma encodePayloadForQueue_of_ne_nil (d : List Byte) (hd : d ≠ []) :
    encodePayloadForQueue d = some (normalizeEncoderOutput d) := by
  unfold encodePayloadForQueue
  rw [if_neg hd]

lemma runFrom_sent (hdr : List Byte) (outs : List (List Byte × Nat))
    (q : List (Bool × EncodedFrame)) :
    outs.foldl (fun s o => processEncoderOutput hdr s o.1 o.2) ⟨true, q⟩
      = ⟨true, q ++ realUnits outs⟩ := by
  induction outs generalizing q with
  | nil => simp [realUnits]
  | cons o rest ih =>
    rw [List.foldl_cons]
    by_cases ho : o.1 = []
    · have hstep : processEncoderOutput hdr ⟨true, q⟩ o.1 o.2 = ⟨true, q⟩ := by
        unfold processEncoderOutput
        rw [ho, encodePayloadForQueue_nil]
      rw [hstep, ih]
      unfold realUnits
      rw [List.filter_cons_of_neg (by simpa using ho)]
    · have hstep : processEncoderOutput hdr ⟨true, q⟩ o.1 o.2
          = ⟨true, q ++ [realUnit o]⟩ := by
        unfold processEncoderOutput
        rw [encodePayloadForQueue_of_ne_nil o.1 ho]
        rw [if_neg (by simp)]
        rfl
      rw [hstep, ih]
      unfold realUnits
      rw [List.filter_cons_of_pos (by simpa using ho)]
      simp [realUnit]

lemma runFrom_unsent (hdr : List Byte) (hhdr : hdr ≠ [])
    (outs : List (List Byte × Nat)) (q : List (Bool × EncodedFrame)) :
    outs.foldl (fun s o => processEncoderOutput hdr s o.1 o.2) ⟨false, q⟩
      = match realUnits outs with
        | [] => ⟨false, q⟩
        | (_, u) :: _ =>
            ⟨true, q ++ (true, ⟨hdr, u.timestamp, false, false⟩) :: realUnits outs⟩ := by
  induction outs generalizing q with
  | nil => simp [realUnits]
  | cons o rest ih =>
    rw [List.foldl_cons]
    by_cases ho : o.1 = []
    · have hstep : processEncoderOutput hdr ⟨false, q⟩ o.1 o.2 = ⟨false, q⟩ := by
        unfold processEncoderOutput
        rw [ho, encodePayloadForQueue_nil]
      rw [hstep, ih]
      unfold realUnits
      rw [List.filter_cons_of_neg (by simpa using ho)]
    · have hstep : processEncoderOutput hdr ⟨false, q⟩ o.1 o.2
          = ⟨true, (q ++ [(true, ⟨hdr, o.2, false, false⟩)]) ++ [realUnit o]⟩ := by
        unfold processEncoderOutput
        rw [encodePayloadForQueue_of_ne_nil o.1 ho]
        rw [if_pos ⟨rfl, hhdr⟩]
        rfl
      rw [hstep, runFrom_sent]
      unfold realUnits
      rw [List.filter_cons_of_pos (by simpa using ho)]
      simp [realUnit]

/-- C9: per encoder session with a cached non-empty parameter-set preamble,
the preamble is enqueued exactly once — as a synthetic Unit with
`is_keyframe = false` carrying only the preamble bytes — and it is the very
first Unit of the session, pushed before the first real access-unit Unit
(with that Unit's timestamp); no later push in the session comes from the
header push site, and if the session never produces a real Unit the
preamble is never enqueued at all. -/
theorem seqHeader_once_before_first_unit (hdr : List Byte)
    (outs : List (List Byte × Nat)) (hhdr : hdr ≠ []) :
    (runSession hdr outs).queue
      = match realUnits outs with
        | [] => []
        | (_, u) :: _ =>
            (true, ⟨hdr, u.timestamp, false, false⟩) :: realUnits outs := by
  unfold runSession
  rw [runFrom_unsent hdr hhdr outs []]
  cases realUnits outs with
  | nil => rfl
  | cons u rest =>
    obtain ⟨tag, fr⟩ := u
    rfl

/-- C9 witness: a session with header `00 00 00 01 67`, one empty encoder
output and two real ones — the queue starts with the synthetic header Unit
(non-keyframe, timestamp of the first real output) followed by the two
access-unit Units. -/
theorem seqHeader_once_witness :
    (([0, 0, 0, 1, 0x67] : List Byte) ≠ [])
    ∧ ((runSession [0, 0, 0, 1, 0x67]
          [([], 1), ([0, 0, 0, 1, 0x65], 2), ([0, 0, 1, 0x41], 3)]).queue
        = match realUnits [([], 1), ([0, 0, 0, 1, 0x65], 2), ([0, 0, 1, 0x41], 3)] with
          | [] => []
          | (_, u) :: _ =>
              (true, ⟨[0, 0, 0, 1, 0x67], u.timestamp, false, false⟩)
                :: realUnits [([], 1), ([0, 0, 0, 1, 0x65], 2), ([0, 0, 1, 0x41], 3)]) :=
  ⟨by decide,
    seqHeader_once_before_first_unit [0, 0, 0, 1, 0x67]
      [([], 1), ([0, 0, 0, 1, 0x65], 2), ([0, 0, 1, 0x41], 3)] (by decide)⟩
